import Mathlib

/-!
Shallow embedding of the extraction core of the `eu-clinical-trial-parser`
repository (src/app/card_parser.py, src/app/protocol_parser.py,
src/app/result_parser.py), together with theorems settling the frozen
claims about its specification.

Python dictionaries are modelled as insertion-ordered association lists,
Python exceptions as `Option` (`none` = the extraction raised), and
BeautifulSoup document trees as structures holding exactly the features the
code reads (cell texts, attributes, anchors, nested tables, serialized
markup).  Machine recursion that Python bounds only dynamically (the
"other versions" recursion) is embedded with explicit fuel.
-/

/-- Python `str.strip()`: remove whitespace from both ends. -/
def pyStrip (s : String) : String :=
  ⟨((s.data.dropWhile Char.isWhitespace).reverse.dropWhile Char.isWhitespace).reverse⟩

/-- ASCII lowercase conversion of one character. -/
def lowerChar (c : Char) : Char :=
  if 'A' ≤ c ∧ c ≤ 'Z' then Char.ofNat (c.toNat + 32) else c

/-- Python `str.lower()` (for the ASCII range relevant to the parsed
pages). -/
def pyLower (s : String) : String := ⟨s.data.map lowerChar⟩

/-- Python `sep.join(l)`. -/
def pyJoin (sep : String) : List String → String
  | [] => ""
  | [t] => t
  | t :: t2 :: ts => t ++ sep ++ pyJoin sep (t2 :: ts)

/-- Character-level join with a separator, the `List Char` image of
`pyJoin`. -/
def joinSepL (sep : List Char) : List (List Char) → List Char
  | [] => []
  | [t] => t
  | t :: t2 :: ts => t ++ sep ++ joinSepL sep (t2 :: ts)

/-- Fuel-indexed scanner behind `pySplit`: scans the character list left to
right, cutting at every non-overlapping occurrence of `sep`.  With
`fuel ≥ length of the list` it computes exactly Python's `str.split(sep)`
(at least one character and exactly one unit of fuel are consumed per
step). -/
def splitFuel (sep : List Char) : Nat → List Char → List Char → List (List Char)
  | 0, l, acc => [acc.reverse ++ l]
  | _ + 1, [], acc => [acc.reverse]
  | f + 1, x :: xs, acc =>
    if sep.isPrefixOf (x :: xs) then
      acc.reverse :: splitFuel sep f ((x :: xs).drop sep.length) []
    else splitFuel sep f xs (x :: acc)

/-- Python `s.split(sep)` for a non-empty separator. -/
def pySplit (s sep : String) : List String :=
  (splitFuel sep.data s.data.length s.data []).map (fun l => ⟨l⟩)

/-- Python `s.replace(pat, rep)` for a non-empty pattern, via the identity
`s.replace(a, b) = b.join(s.split(a))`. -/
def pyReplace (s pat rep : String) : String := pyJoin rep (pySplit s pat)

/-- Python `str.strip()` followed by `.replace("\n", "")`, the cleaning
applied to most extracted cell texts. -/
def cleanV (s : String) : String := pyReplace (pyStrip s) "\n" ""

/-- Python `str.strip()` followed by `.replace("\n", " ")`, the cleaning
applied to version labels in `result_parser.py`. -/
def cleanLabel (s : String) : String := pyReplace (pyStrip s) "\n" " "

/-- Scan for an occurrence of `needle` starting at any position. -/
def infixScan (needle : List Char) : List Char → Bool
  | [] => needle.isEmpty
  | x :: xs => needle.isPrefixOf (x :: xs) || infixScan needle xs

/-- Substring test, modelling Python's `needle in haystack`. -/
def containsSub (haystack needle : String) : Bool :=
  infixScan needle.data haystack.data

/-- Insertion-ordered dictionary update `d[k] = v`, modelling a Python dict:
an existing key keeps its position and gets the new value, a new key is
appended at the end. -/
def dictInsert {α : Type} (d : List (String × α)) (k : String) (v : α) :
    List (String × α) :=
  if k ∈ d.map Prod.fst then
    d.map (fun p => if p.1 = k then (k, v) else p)
  else d ++ [(k, v)]

/-- Python `d.update(d2)`: insert every pair of `d2`, in order, into `d`. -/
def dictUpdate {α : Type} (d d2 : List (String × α)) : List (String × α) :=
  d2.foldl (fun acc kv => dictInsert acc kv.1 kv.2) d

/-- Python `d[k]` as a total lookup. -/
def dictGet {α : Type} (d : List (String × α)) (k : String) : Option α :=
  (d.find? (fun p => p.1 = k)).map Prod.snd

/-- Python `d.pop(k)`: remove the entry for `k`; raises (`none`) when the
key is absent. -/
def dictPop {α : Type} (d : List (String × α)) (k : String) :
    Option (List (String × α)) :=
  if k ∈ d.map Prod.fst then some (d.filter (fun p => ¬ p.1 = k))
  else none

namespace CardParser

/-- Base URL constant of `card_parser.py`. -/
def BASE_URL : String := "https://www.clinicaltrialsregister.eu"

/-- A `<td>` cell of the disease classification table: its
`get_text`/`text` value and its `class` attribute (`none` models a missing
or empty, i.e. Python-falsy, `td.get("class")`). -/
structure Td where
  text : String
  cls : Option String
deriving DecidableEq

/-- An `<a>` element in the trial-protocols cell: link text, `href`
attribute and the text of an immediately following `<span>` sibling when
one exists (`find_next_sibling("span")`). -/
structure Anchor where
  text : String
  href : String
  statusSpan : Option String
deriving DecidableEq

/-- The features of one trial card read by the claims' extractors:
`diseaseTable` is `card.find("table")` with its `<td>` cells in document
order (`none` when the card holds no table), `protocolAnchors` the anchors
of the second-from-last row's first cell, and `resultsHref` the `href` of
the first anchor in the last row's first cell. -/
structure Card where
  diseaseTable : Option (List Td)
  protocolAnchors : List Anchor
  resultsHref : Option String
deriving DecidableEq

/-- `check_table_exists`: the flag is set exactly when the card holds a
table. -/
def check_table_exists (card : Card) : Bool := card.diseaseTable.isSome

/-- The five disease accumulator lists built by the
`get_disease_row_data` loop. -/
structure DiseaseLists where
  version : List String := []
  soc_term : List String := []
  classification_code : List String := []
  term : List String := []
  level : List String := []
deriving DecidableEq

/-- The final `disease` record: each field is the `" ||| "`-join of its
list, or `None` (≈ `none`) when the list is empty. -/
structure Disease where
  version : Option String
  soc_term : Option String
  classification_code : Option String
  term : Option String
  level : Option String
deriving DecidableEq

/-- One iteration of the `for i, td in enumerate(tds)` loop body: append
the text to the list selected by `i % 5` (the source's `elif i % 5 == 4`
branch is the final case, as `i % 5 < 5`). -/
def diseaseStep (d : DiseaseLists) (i : Nat) (t : String) : DiseaseLists :=
  if i % 5 = 0 then { d with version := d.version ++ [t] }
  else if i % 5 = 1 then { d with soc_term := d.soc_term ++ [t] }
  else if i % 5 = 2 then { d with classification_code := d.classification_code ++ [t] }
  else if i % 5 = 3 then { d with term := d.term ++ [t] }
  else { d with level := d.level ++ [t] }

/-- The enumerate loop of `get_disease_row_data`, threading the running
index. -/
def diseaseGo : Nat → List String → DiseaseLists → DiseaseLists
  | _, [], d => d
  | i, t :: ts, d => diseaseGo (i + 1) ts (diseaseStep d i t)

/-- Python `" ||| ".join(l) if l else None`. -/
def joinOrNone (l : List String) : Option String :=
  if l.isEmpty then none else some (pyJoin " ||| " l)

/-- `get_disease_row_data`: when no table exists all five fields are set to
`None`; otherwise the cells without a `class` attribute are distributed
round-robin by index modulo 5 and each list is joined with `" ||| "` (or
set to `None` when empty). -/
def get_disease_row_data (card : Card) : Disease :=
  match card.diseaseTable with
  | none => ⟨none, none, none, none, none⟩
  | some tds =>
    let tds := tds.filter (fun td => td.cls = none)
    let ls := diseaseGo 0 (tds.map (fun td => pyStrip td.text)) {}
    { version := joinOrNone ls.version
      soc_term := joinOrNone ls.soc_term
      classification_code := joinOrNone ls.classification_code
      term := joinOrNone ls.term
      level := joinOrNone ls.level }

/-- Reference texts of the cells at indices congruent to `r` modulo 5,
starting the count at `i`: the "per-group" cell texts of field `r`. -/
def collectMod (r : Nat) : Nat → List String → List String
  | _, [] => []
  | i, t :: ts => (if i % 5 = r then [t] else []) ++ collectMod r (i + 1) ts

/-- Field selector for `Disease` in the source's fixed order
(version, soc_term, classification_code, term, level). -/
def diseaseField (d : Disease) : Nat → Option String
  | 0 => d.version
  | 1 => d.soc_term
  | 2 => d.classification_code
  | 3 => d.term
  | _ => d.level

/-- One `ProtocolRef` produced by `get_trial_protocols`. -/
structure ProtocolRef where
  protocol_name : String
  protocol_url : String
  protocol_status : String
deriving DecidableEq

/-- `get_trial_protocols`: one `ProtocolRef` per anchor; the URL is the
base URL concatenated with the `href`; the status is the cleaned sibling
span text or the sentinel. -/
def get_trial_protocols (card : Card) : List ProtocolRef :=
  card.protocolAnchors.map (fun a =>
    { protocol_name := cleanV a.text
      protocol_url := BASE_URL ++ a.href
      protocol_status :=
        match a.statusSpan with
        | none => "No Status Available"
        | some s =>
          pyReplace (pyReplace (pyReplace (pyStrip s) "(" "") ")" "") "\n" "" })

/-- `get_trial_results_link`: `None` when the last row's first cell has no
anchor, else the base URL concatenated with its `href`. -/
def get_trial_results_link (card : Card) : Option String :=
  match card.resultsHref with
  | none => none
  | some h => some (BASE_URL ++ h)

/-- A URL is absolute when it starts with the `https://` scheme. -/
def isAbsoluteUrl (u : String) : Bool := "https://".data.isPrefixOf u.data

end CardParser

namespace ProtocolParser

/-- A value stored in a protocol section map: either a bare scalar string
or a list of strings.  The source only ever stores lists (see the claims
on `get_table_data`); the scalar constructor expresses the unwrapping the
specification describes. -/
inductive PValue where
  | scalar : String → PValue
  | list : List String → PValue
deriving DecidableEq

/-- One iteration of the row loop of `get_table_data` over the cleaned
cell texts of a row.  `none` models the `IndexError` Python raises on
`cells[0]` for a row without cells.  A row with a single cell has an empty
value list and is skipped; otherwise the second cell is the key, the cells
from the third onward are the value, and `value if len(value) > 1 else
[value[0]]` keeps a one-element list as a one-element list. -/
def rowStep (d : Option (List (String × PValue))) (cells : List String) :
    Option (List (String × PValue)) :=
  match d with
  | none => none
  | some data =>
    match cells with
    | [] => none
    | c0 :: rest =>
      let key := if cells.length > 1 then cleanV (rest.headD "") else cleanV c0
      let value := if cells.length > 1 then (cells.drop 2).map cleanV else []
      match value with
      | [] => some data
      | v0 :: vrest =>
        let value := if (v0 :: vrest).length > 1 then v0 :: vrest else [v0]
        some (dictInsert data key (PValue.list value))

/-- `get_table_data` over the rows (lists of raw `<td>` texts) of one
protocol section table body. -/
def get_table_data (rows : List (List String)) :
    Option (List (String × PValue)) :=
  rows.foldl rowStep (some [])

end ProtocolParser

namespace ResultParser

/-- The JSON-like values produced by `parse_table_to_json`: a bare cell
text, a list (a parsed row, a nested table's parse, or the value list of a
keyed row entry), or the single-key map `{cells[0]: [cells[1:]]}`. -/
inductive Json where
  | s : String → Json
  | arr : List Json → Json
  | obj : String → List String → Json

mutual

/-- The rows (`<tr>` elements) of an HTML table. -/
inductive JRows where
  | nil : JRows
  | cons : JRow → JRows → JRows

/-- The cells (`th`/`td` elements) of one row. -/
inductive JRow where
  | nil : JRow
  | cons : JCell → JRow → JRow

/-- One cell: its `get_text(strip=True)` value (which includes the text of
any nested content) together with its first nested descendant table
(`cell.find('table')`), when one exists. -/
inductive JCell where
  | cell : String → JNest → JCell

/-- Presence or absence of a nested table inside a cell. -/
inductive JNest where
  | flat : JNest
  | table : JRows → JNest

end

/-- Number of cells in a row (Python `len(cells)`). -/
def rowLen : JRow → Nat
  | .nil => 0
  | .cons _ cs => rowLen cs + 1

/-- The `get_text(strip=True)` value of a cell. -/
def cellText : JCell → String
  | .cell t _ => t

/-- The texts of all cells of a row, in order. -/
def rowTexts : JRow → List String
  | .nil => []
  | .cons c cs => cellText c :: rowTexts cs

/-- The text of `cells[0]`. -/
def headText : JRow → String
  | .nil => ""
  | .cons c _ => cellText c

mutual

/-- `parse_table_to_json` over the rows of a table: each row whose cell
loop set `valid_row` contributes its `row_data` list, in document order. -/
def parse_rows (title : String) : JRows → List Json
  | .nil => []
  | .cons r rs =>
    let p := parse_cells title r r
    (if p.2 then [Json.arr p.1] else []) ++ parse_rows title rs

/-- The cell loop of `parse_table_to_json` over one row: returns the
accumulated `row_data` together with the `valid_row` flag.  A cell with a
nested table always contributes the nested parse (validating the row only
when that parse is non-empty); a flat cell whose lowercased text is neither
the table title nor `"top of page"` nor empty contributes either the
single-key map `{cells[0]: [cells[1:] texts]}` (rows with more than one
cell) or its bare text. -/
def parse_cells (title : String) (whole : JRow) : JRow → List Json × Bool
  | .nil => ([], false)
  | .cons c cs =>
    let p := parse_cells title whole cs
    match c with
    | .cell txt .flat =>
      if pyLower txt ≠ pyLower title ∧ pyLower txt ≠ "top of page" ∧ txt ≠ "" then
        ((if rowLen whole > 1 then Json.obj (headText whole) ((rowTexts whole).drop 1)
          else Json.s txt) :: p.1, true)
      else p
    | .cell _ (.table nt) =>
      let nr := parse_rows title nt
      (Json.arr nr :: p.1, p.2 || !nr.isEmpty)

end

/-- `parse_table_to_json(table, table_title)`. -/
def parse_table_to_json (title : String) (rows : JRows) : List Json :=
  parse_rows title rows

/-- One `<td>` cell of the first summary table under `div#resultContent`:
its text and the texts of its `<a>` descendants. -/
structure SummaryTd where
  text : String
  anchors : List String
deriving DecidableEq

/-- One table following the jump-to-section navigation block: its `id`
attribute, the markup it contributes to `str(soup)`, and its row/cell
structure. -/
structure RTable where
  tid : Option String
  content : String
  rows : JRows

/-- The features of one results page read by `ResultParser`:
`resultContent` holds the `<td>` cells of the first table under
`div#resultContent` (`none` when that division or table is missing),
`otherVersions` the `(href, text)` pairs of the anchors in the sibling cell
of the "Other versions" label (empty when the label row is absent),
`versionNumber` the raw sibling-cell text of the "Results version number"
label, `jumperLinks` the `(href, text)` anchors of `div#jumperLinks`
(`none` when the division is absent), `tables` the sibling tables following
that division in document order, `pdfHref` the `href` of the
`a#downloadResultPdf` link, and `headerHtml` the serialized markup of
everything on the page other than `tables`. -/
structure ResultPage where
  resultContent : Option (List SummaryTd)
  otherVersions : List (String × String)
  versionNumber : Option String
  jumperLinks : Option (List (String × String))
  tables : List RTable
  pdfHref : Option String
  headerHtml : String

/-- String suffix test (`re.compile("Closed$")` matched against an `id`
attribute). -/
def endsWithStr (s suffix : String) : Bool :=
  suffix.data.reverse.isPrefixOf s.data.reverse

/-- Whether a table is matched by `find_all("table", id=re.compile("Closed$"))`:
it has an `id` attribute ending in `Closed`. -/
def closedTable (t : RTable) : Bool :=
  match t.tid with
  | none => false
  | some i => endsWithStr i "Closed"

/-- `remove_closed_tables`: `decompose()` every table whose `id` ends in
`Closed`, mutating the soup. -/
def remove_closed_tables (p : ResultPage) : ResultPage :=
  { p with tables := p.tables.filter (fun t => !closedTable t) }

/-- Serialization `str(self.soup)` of the page in its current state. -/
def renderPage (p : ResultPage) : String :=
  p.headerHtml ++ String.join (p.tables.map (fun t => t.content))

/-- For every cell matching `pred`, its `find_next_sibling("td")` in
document order (`none` inside the list when the matching cell is the
last). -/
def sibTdOpts (pred : String → Bool) : List SummaryTd → List (Option SummaryTd)
  | [] => []
  | [t] => if pred t.text then [none] else []
  | t :: t2 :: rest =>
    (if pred t.text then [some t2] else []) ++ sibTdOpts pred (t2 :: rest)

/-- The per-version `summary` record. -/
structure RSummary where
  url : Option String
  eudract_number : Option String
  trial_protocol : List String
  global_end_date : Option String
deriving DecidableEq

/-- `get_summary`: locate labelled cells and read their immediate sibling
cells; the protocol identifiers come from the anchors of the sibling of
the first "Trial prot…" cell.  `none` models the exceptions raised when
`div#resultContent` (or its table) is missing, when a matching label cell
has no sibling, or when no "Trial prot…" cell exists. -/
def get_summary (url : Option String) (p : ResultPage) : Option RSummary := do
  let tds ← p.resultContent
  let eud ← (sibTdOpts (fun s => pyStrip s = "EudraCT number") tds).mapM
      (fun o => o.map (fun t => cleanV t.text))
  let tp ← (sibTdOpts (fun s => containsSub (pyStrip s) "Trial prot") tds).head?
  let tpTd ← tp
  let ge ← (sibTdOpts (fun s => containsSub (pyStrip s) "Global end") tds).mapM
      (fun o => o.map (fun t => cleanV t.text))
  some { url := url
         eudract_number := eud.head?
         trial_protocol := tpTd.anchors.map cleanV
         global_end_date := ge.head? }

/-- The suffix of the cell-text list starting at the first cell whose
stripped text is `"Results information"` (Python's `list.index` followed by
the slice); `none` models the `IndexError` when no such cell exists. -/
def splitAtRI : List String → Option (List String)
  | [] => none
  | t :: ts => if pyStrip t = "Results information" then some (t :: ts) else splitAtRI ts

/-- The `for i in range(0, len, 2)` loop of `get_results_information`:
consume cells two at a time as key/value pairs; `none` models the
`IndexError` on an odd-length list. -/
def pairsLoop : List String → List (String × String) → Option (List (String × String))
  | [], d => some d
  | [_], _ => none
  | k :: v :: rest, d => pairsLoop rest (dictInsert d (cleanV k) (cleanV v))

/-- The cleaned keys (even-position cells) of an alternating
label/value cell list. -/
def pairKeys : List String → List String
  | k :: _ :: rest => cleanV k :: pairKeys rest
  | _ => []

/-- `get_results_information` on the cell texts: slice from the
"Results information" cell, read alternating pairs, then
`pop("Results information")`. -/
def resultsInfoOfTds (tds : List String) : Option (List (String × String)) := do
  let suffix ← splitAtRI tds
  let d ← pairsLoop suffix []
  dictPop d "Results information"

/-- `get_results_information` on the page. -/
def get_results_information (p : ResultPage) : Option (List (String × String)) := do
  let tds ← p.resultContent
  resultsInfoOfTds (tds.map (fun t => t.text))

/-- `link['href'][1:]` for each navigation anchor: the anchor targets. -/
def tableIds (links : List (String × String)) : List String :=
  links.map (fun a => ⟨a.1.data.drop 1⟩)

/-- `jumper_links[idx].get_text().strip()`; the out-of-range default is
never reached, as `idx` always comes from `table_ids.index(...)` and
`table_ids` has the same length as the link list. -/
def titleAt (links : List (String × String)) (idx : Nat) : String :=
  match links.get? idx with
  | some a => pyStrip a.2
  | none => ""

/-- `additional_info[title].append(x)`; the key is always present when this
runs (it was inserted when the section was opened), so the
key-absent case never changes anything. -/
def dictAppend {α : Type} (d : List (String × List α)) (k : String) (x : α) :
    List (String × List α) :=
  d.map (fun p => if p.1 = k then (p.1, p.2 ++ [x]) else p)

/-- The table loop of `get_additional_info`: a table whose `id` is one of
the anchor targets opens the section named by the matching anchor's text
and contributes that section's first block; any other table is appended to
the currently open section, or silently skipped when no section is open
yet. -/
def addInfoLoop (links : List (String × String)) (ids : List String) :
    List RTable → Option Nat → List (String × List (List Json)) →
    List (String × List (List Json))
  | [], _, acc => acc
  | t :: ts, cur, acc =>
    match t.tid with
    | some i =>
      if ids.contains i then
        let idx := ids.indexOf i
        addInfoLoop links ids ts (some idx)
          (dictInsert acc (titleAt links idx)
            [parse_table_to_json (titleAt links idx) t.rows])
      else
        match cur with
        | some c =>
          addInfoLoop links ids ts cur
            (dictAppend acc (titleAt links c) (parse_table_to_json (titleAt links c) t.rows))
        | none => addInfoLoop links ids ts cur acc
    | none =>
      match cur with
      | some c =>
        addInfoLoop links ids ts cur
          (dictAppend acc (titleAt links c) (parse_table_to_json (titleAt links c) t.rows))
      | none => addInfoLoop links ids ts cur acc

/-- `get_additional_info`: first `remove_closed_tables()` mutates the soup;
then, when `div#jumperLinks` is absent, the function returns the empty map
without storing it (`none` in the second component means no
`additional_info` key is written); otherwise the anchors minus their
trailing two navigation entries name the sections and the sibling tables
are folded through `addInfoLoop`. -/
def get_additional_info (p : ResultPage) :
    ResultPage × Option (List (String × List (List Json))) :=
  let p := remove_closed_tables p
  match p.jumperLinks with
  | none => (p, none)
  | some links =>
    let jl := links.take (links.length - 2)
    let ids := tableIds jl
    (p, some (addInfoLoop jl ids p.tables none []))

/-- The `(text, tables)` data the PDF collaborator
(`get_pdf_zip` + `extract_text_and_tables_from_pdf`) returns for a PDF
link. -/
structure PdfData where
  url : String
  text : String
  tables : List (List (List (Option String)))
deriving DecidableEq

/-- The fetch-and-extract PDF collaborator, keyed by the PDF link URL. -/
abbrev PdfCollab := String → String × List (List (List (Option String)))

/-- One version entry of the accumulated results dictionary.  Each field
models the presence (`some`) or absence (`none`) of the corresponding key
in the per-version Python dict. -/
structure VersionEntry where
  summary : Option RSummary := none
  results_information : Option (List (String × String)) := none
  additional_info : Option (List (String × List (List Json))) := none
  pdf : Option PdfData := none
  html : Option String := none

/-- The version-keyed results dictionary. -/
abbrev VDict := List (String × VersionEntry)

/-- The per-page tail of `parse`, in source order: `get_summary` (which
replaces the whole version entry), `get_results_information`,
`get_additional_info` (which mutates the soup and may not store its key),
`get_pdf_link`/`get_pdf_data`, and finally `get_html` capturing
`str(self.soup)` in its mutated state. -/
def parseSteps (pdfc : PdfCollab) (url : Option String) (p : ResultPage) :
    Option VersionEntry := do
  let s ← get_summary url p
  let ri ← get_results_information p
  let pai := get_additional_info p
  let pdf := pai.1.pdfHref.map (fun h =>
    { url := h, text := (pdfc h).1, tables := (pdfc h).2 : PdfData })
  some { summary := some s
         results_information := some ri
         additional_info := pai.2
         pdf := pdf
         html := some (renderPage pai.1) }

/-- One unfolding of `parse`: `if not self.version` (Python truthiness, so
both `None` and the empty label re-enter the expansion) run
`get_other_versions`, fetching every linked version and recursively
parsing it with its label pre-supplied, merging each child dictionary with
`data.update`; then `detect_version` (only when the label is `None`), the
per-page steps, and the store under the version key. -/
def parseStep (fetch : String → ResultPage) (pdfc : PdfCollab)
    (recur : Option String → Option String → ResultPage → Option VDict) :
    Option String → Option String → ResultPage → Option VDict :=
  fun version url p => do
    let d0 ←
      if version = none ∨ version = some "" then
        p.otherVersions.foldlM (fun d hl => do
          let child ← recur (some (cleanLabel hl.2)) (some hl.1) (fetch hl.1)
          pure (dictUpdate d child)) ([] : VDict)
      else pure ([] : VDict)
    let v ← match version with
            | none => (p.versionNumber).map cleanLabel
            | some v0 => some v0
    let entry ← parseSteps pdfc url p
    some (dictInsert d0 v entry)

/-- `ResultParser.parse` with explicit fuel bounding the recursion depth
through "other versions" links: `none` models both a raised exception and
fuel exhaustion (Python's `RecursionError` on an unbounded recursion). -/
def parseFuel (fetch : String → ResultPage) (pdfc : PdfCollab) :
    Nat → Option String → Option String → ResultPage → Option VDict
  | 0 => fun _ _ _ => none
  | fuel + 1 => parseStep fetch pdfc (parseFuel fetch pdfc fuel)

end ResultParser

/-! ### Concrete inputs used by witnesses and counterexamples -/

/-- A trivial PDF collaborator (no witness page carries a PDF link). -/
def pdfc0 : ResultParser.PdfCollab := fun _ => ("", [])

/-- A well-formed summary-cell list: EudraCT number, trial-protocol links,
and a results-information block of one pair. -/
def wfTds : List ResultParser.SummaryTd :=
  [⟨"EudraCT number", []⟩, ⟨"2010-001", []⟩,
   ⟨"Trial protocol", []⟩, ⟨"GB", ["GB"]⟩,
   ⟨"Results information", []⟩, ⟨"", []⟩,
   ⟨"Analysis stage", []⟩, ⟨"Final", []⟩]

/-- The summary record extracted from `wfTds` for a page visited with no
URL. -/
def wfSummary : ResultParser.RSummary := ⟨none, some "2010-001", ["GB"], none⟩

/-- A card whose disease table holds one group of five class-free cells,
the first of which contains the `" ||| "` separator itself. -/
def cardSep : CardParser.Card :=
  ⟨some [⟨"a ||| b", none⟩, ⟨"s", none⟩, ⟨"c", none⟩, ⟨"t", none⟩, ⟨"l", none⟩], [], none⟩

/-- A card whose disease table holds two groups of five class-free cells
plus one header cell, all texts space-free. -/
def cardW4 : CardParser.Card :=
  ⟨some [⟨"hdr", some "labelColumn"⟩,
         ⟨"v1", none⟩, ⟨"s1", none⟩, ⟨"c1", none⟩, ⟨"t1", none⟩, ⟨"l1", none⟩,
         ⟨"v2", none⟩, ⟨"s2", none⟩, ⟨"c2", none⟩, ⟨"t2", none⟩, ⟨"l2", none⟩], [], none⟩

/-- A card with no nested table. -/
def cardW5 : CardParser.Card := ⟨none, [], none⟩

/-- A card with one protocol anchor and a results link. -/
def cardW9 : CardParser.Card := ⟨none, [⟨"P1", "/ctr/1", none⟩], some "/res"⟩

/-- The example cell texts of the results-information claim. -/
def riCells : List String :=
  ["Results information", "", "Analysis stage", "Final",
   "Date of completion", "2020-01-01"]

/-- A results page carrying one table whose `id` ends in `Closed`. -/
def pageC1 : ResultParser.ResultPage :=
  ⟨some wfTds, [], some "v1", none,
   [⟨some "AdverseEventsClosed", "<closed-table/>", .nil⟩], none, "<page/>"⟩

/-- The version entry `parse` produces for `pageC1`: the captured markup
lacks the removed closed table. -/
def entryC1 : ResultParser.VersionEntry :=
  ⟨some wfSummary, some [("Analysis stage", "Final")], none, none, some "<page/>"⟩

/-- A results page with one ordinary (non-closed) table. -/
def pageW1 : ResultParser.ResultPage :=
  ⟨some wfTds, [], some "v1", none, [⟨some "T1", "<t1/>", .nil⟩], none, "<w/>"⟩

/-- A results page with no jump-to-section navigation block. -/
def page8 : ResultParser.ResultPage :=
  ⟨some wfTds, [], some "v1", none, [], none, "<p8/>"⟩

/-- The version entry `parse` produces for `page8`. -/
def entry8 : ResultParser.VersionEntry :=
  ⟨some wfSummary, some [("Analysis stage", "Final")], none, none, some "<p8/>"⟩

/-- Navigation anchors for the additional-information witness: one data
section plus the two trailing non-data entries. -/
def jlinksW : List (String × String) :=
  [("#s1", "Section One"), ("#print", "Print"), ("#top", "Top")]

/-- A table whose `id` matches no anchor target. -/
def tablePre : ResultParser.RTable := ⟨some "intro", "<pre/>", .nil⟩

/-- The table opening section `s1`. -/
def tableS1 : ResultParser.RTable := ⟨some "s1", "<s1/>", .nil⟩

/-- A results page whose additional-information region starts with a
non-matching table. -/
def pageTenA : ResultParser.ResultPage :=
  ⟨some wfTds, [], some "v1", some jlinksW, [tablePre, tableS1], none, ""⟩

/-- The same page with the non-matching prefix removed. -/
def pageTenB : ResultParser.ResultPage :=
  ⟨some wfTds, [], some "v1", some jlinksW, [tableS1], none, ""⟩

/-- An entry page linking two other versions labelled `v1` and `v2`. -/
def pageC2 : ResultParser.ResultPage :=
  ⟨some wfTds, [("a", "v1"), ("b", "v2")], some "v3", none, [], none, "<e/>"⟩

/-- The pages behind the two links of `pageC2`. -/
def pageA2 : ResultParser.ResultPage :=
  ⟨some wfTds, [], some "vA", none, [], none, "<a/>"⟩

/-- Second linked page of `pageC2`. -/
def pageB2 : ResultParser.ResultPage :=
  ⟨some wfTds, [], some "vB", none, [], none, "<b/>"⟩

/-- The fetch collaborator for `pageC2`. -/
def fetchC2 : String → ResultParser.ResultPage :=
  fun u => if u = "a" then pageA2 else pageB2

/-- The per-link version entries of `pageC2`'s children. -/
def ceC2 : String × String → ResultParser.VersionEntry :=
  fun hl =>
    if hl.1 = "a" then
      ⟨some ⟨some "a", some "2010-001", ["GB"], none⟩,
       some [("Analysis stage", "Final")], none, none, some "<a/>"⟩
    else
      ⟨some ⟨some "b", some "2010-001", ["GB"], none⟩,
       some [("Analysis stage", "Final")], none, none, some "<b/>"⟩

/-- The entry the top-level page `pageC2` stores for itself. -/
def entryE2 : ResultParser.VersionEntry :=
  ⟨some wfSummary, some [("Analysis stage", "Final")], none, none, some "<e/>"⟩

/-- Two cross-linked version pages whose "other versions" anchors carry
empty label text. -/
def pageCycA : ResultParser.ResultPage :=
  ⟨some wfTds, [("b", "")], some "vA", none, [], none, ""⟩

/-- The page cross-linking back to `pageCycA`. -/
def pageCycB : ResultParser.ResultPage :=
  ⟨some wfTds, [("a", "")], some "vB", none, [], none, ""⟩

/-- An entry page whose single other-version link has empty label text. -/
def pageCycE : ResultParser.ResultPage :=
  ⟨some wfTds, [("a", "")], some "vE", none, [], none, ""⟩

/-- The fetch collaborator realizing the cross-link cycle. -/
def cycFetch : String → ResultParser.ResultPage :=
  fun u => if u = "a" then pageCycA else pageCycB

/-- The version entry `parse` produces for `pageW1`. -/
def entryW1 : ResultParser.VersionEntry :=
  ⟨some wfSummary, some [("Analysis stage", "Final")], none, none, some "<w/><t1/>"⟩

/-! ### Lemmas about the string split/join model -/
theorem string_data_append (a b : String) : (a ++ b).data = a.data ++ b.data := rfl

theorem string_mk_data (s : String) : String.mk s.data = s := rfl

theorem splitFuel_cons_no (sh : Char) (st : List Char) (x : Char) (xs acc : List Char)
    (g : Nat) (hx : x ≠ sh) :
    splitFuel (sh :: st) (g + 1) (x :: xs) acc = splitFuel (sh :: st) g xs (x :: acc) := by
  have hp : ((sh :: st).isPrefixOf (x :: xs)) = false := by
    simp [List.isPrefixOf]
    intro h
    exact absurd h.symm hx
  simp [splitFuel, hp]

theorem splitFuel_at_head (sh : Char) (st : List Char) (rest acc : List Char) (g : Nat) :
    splitFuel (sh :: st) (g + 1) ((sh :: st) ++ rest) acc
      = acc.reverse :: splitFuel (sh :: st) g rest [] := by
  rw [List.cons_append]
  have hp : (sh :: st).isPrefixOf (sh :: (st ++ rest)) = true := by
    rw [← List.cons_append]
    exact List.isPrefixOf_iff_prefix.mpr (List.prefix_append _ _)
  simp only [splitFuel, hp, if_true]
  rw [show (sh :: st).length = st.length + 1 from rfl, List.drop_succ_cons, List.drop_left]

theorem splitFuel_irrel (sh : Char) (st : List Char) :
    ∀ f1 f2 (l acc : List Char), l.length ≤ f1 → l.length ≤ f2 →
      splitFuel (sh :: st) f1 l acc = splitFuel (sh :: st) f2 l acc := by
  intro f1
  induction f1 with
  | zero =>
    intro f2 l acc h1 h2
    have hl : l = [] := List.eq_nil_of_length_eq_zero (Nat.le_zero.mp h1)
    subst hl
    cases f2 with
    | zero => rfl
    | succ g => simp [splitFuel]
  | succ f ih =>
    intro f2 l acc h1 h2
    cases l with
    | nil =>
      cases f2 with
      | zero => simp [splitFuel]
      | succ g => rfl
    | cons x xs =>
      simp only [List.length_cons] at h1 h2
      cases f2 with
      | zero => omega
      | succ g =>
        simp only [splitFuel]
        by_cases hp : (sh :: st).isPrefixOf (x :: xs)
        · simp only [hp, if_true]
          have hd : ((x :: xs).drop (sh :: st).length).length ≤ f := by
            simp [List.length_drop]
            omega
          have hd2 : ((x :: xs).drop (sh :: st).length).length ≤ g := by
            simp [List.length_drop]
            omega
          rw [ih g _ [] hd hd2]
        · simp only [hp, if_false]
          exact ih g xs (x :: acc) (by omega) (by omega)

theorem splitFuel_no_occ (sh : Char) (st : List Char) :
    ∀ (l : List Char), (∀ a ∈ l, a ≠ sh) → ∀ f acc, l.length ≤ f →
      splitFuel (sh :: st) f l acc = [acc.reverse ++ l] := by
  intro l
  induction l with
  | nil =>
    intro _ f acc _
    cases f with
    | zero => rfl
    | succ g => simp [splitFuel]
  | cons x xs ih =>
    intro h f acc hf
    simp only [List.length_cons] at hf
    cases f with
    | zero => omega
    | succ g =>
      rw [splitFuel_cons_no sh st x xs acc g (h x (by simp))]
      rw [ih (fun a ha => h a (by simp [ha])) g (x :: acc) (by omega)]
      simp

theorem splitFuel_at_sep (sh : Char) (st : List Char) :
    ∀ (t : List Char), (∀ a ∈ t, a ≠ sh) →
      ∀ (rest acc : List Char) f, (t ++ (sh :: st) ++ rest).length ≤ f →
        ∃ f2, rest.length ≤ f2 ∧
          splitFuel (sh :: st) f (t ++ (sh :: st) ++ rest) acc
            = (acc.reverse ++ t) :: splitFuel (sh :: st) f2 rest [] := by
  intro t
  induction t with
  | nil =>
    intro _ rest acc f hf
    simp only [List.nil_append, List.length_append, List.length_cons] at hf
    cases f with
    | zero => omega
    | succ g =>
      refine ⟨g, by omega, ?_⟩
      rw [List.nil_append, splitFuel_at_head]
      simp
  | cons y t' ih =>
    intro h rest acc f hf
    simp only [List.cons_append, List.length_cons] at hf
    cases f with
    | zero => omega
    | succ g =>
      obtain ⟨f2, hf2, heq⟩ :=
        ih (fun a ha => h a (by simp [ha])) rest (y :: acc) g (by omega)
      refine ⟨f2, hf2, ?_⟩
      rw [List.append_assoc, List.cons_append,
        splitFuel_cons_no sh st y _ acc g (h y (by simp)),
        ← List.append_assoc, heq]
      simp

theorem splitFuel_joinSepL (sh : Char) (st : List Char) :
    ∀ (ts : List (List Char)), ts ≠ [] → (∀ t ∈ ts, ∀ a ∈ t, a ≠ sh) →
      ∀ f, (joinSepL (sh :: st) ts).length ≤ f →
        splitFuel (sh :: st) f (joinSepL (sh :: st) ts) [] = ts := by
  intro ts
  induction ts with
  | nil => intro h; exact absurd rfl h
  | cons t ts ih =>
    intro _ hsp f hf
    cases ts with
    | nil =>
      rw [show joinSepL (sh :: st) [t] = t from rfl] at hf ⊢
      rw [splitFuel_no_occ sh st t (hsp t (by simp)) f [] hf]
      rfl
    | cons t2 ts' =>
      rw [show joinSepL (sh :: st) (t :: t2 :: ts')
            = t ++ (sh :: st) ++ joinSepL (sh :: st) (t2 :: ts') from rfl] at hf ⊢
      obtain ⟨f2, hf2, heq⟩ :=
        splitFuel_at_sep sh st t (hsp t (by simp)) (joinSepL (sh :: st) (t2 :: ts')) [] f hf
      rw [heq]
      rw [ih (by simp) (fun u hu a ha => hsp u (by simp [hu]) a ha) f2 hf2]
      simp

theorem pyJoin_data (sep : String) :
    ∀ ts : List String, (pyJoin sep ts).data = joinSepL sep.data (ts.map (fun t => t.data)) := by
  intro ts
  induction ts with
  | nil => rfl
  | cons t ts ih =>
    cases ts with
    | nil => rfl
    | cons t2 ts' =>
      rw [show pyJoin sep (t :: t2 :: ts') = t ++ sep ++ pyJoin sep (t2 :: ts') from rfl]
      rw [string_data_append, string_data_append, ih]
      rfl

theorem pySplit_pyJoin (ts : List String) (hne : ts ≠ [])
    (hsp : ∀ t ∈ ts, ∀ a ∈ t.data, a ≠ ' ') :
    pySplit (pyJoin " ||| " ts) " ||| " = ts := by
  show (splitFuel (" ||| " : String).data (pyJoin " ||| " ts).data.length
      (pyJoin " ||| " ts).data []).map (fun l => String.mk l) = ts
  rw [pyJoin_data]
  rw [show (" ||| " : String).data = ' ' :: ['|', '|', '|', ' '] from rfl]
  rw [splitFuel_joinSepL ' ' ['|', '|', '|', ' '] (ts.map (fun t => t.data))
      (by simpa using hne)
      (by
        intro t' ht' a ha
        rcases List.mem_map.mp ht' with ⟨t, ht, rfl⟩
        exact hsp t ht a ha)
      _ (Nat.le_refl _)]
  rw [List.map_map]
  have hid : ((fun l => String.mk l) ∘ fun t : String => t.data) = id := by
    funext t
    exact string_mk_data t
  rw [hid, List.map_id]

/-! ### Lemmas about the disease round-robin distribution -/

namespace CardParser

theorem diseaseGo_fields :
    ∀ (ts : List String) (i : Nat) (d : DiseaseLists),
      diseaseGo i ts d =
        ⟨d.version ++ collectMod 0 i ts,
         d.soc_term ++ collectMod 1 i ts,
         d.classification_code ++ collectMod 2 i ts,
         d.term ++ collectMod 3 i ts,
         d.level ++ collectMod 4 i ts⟩ := by
  intro ts
  induction ts with
  | nil =>
    intro i d
    cases d
    simp [diseaseGo, collectMod]
  | cons t ts ih =>
    intro i d
    rw [show diseaseGo i (t :: ts) d = diseaseGo (i + 1) ts (diseaseStep d i t) from rfl]
    rw [ih]
    have h5 : i % 5 = 0 ∨ i % 5 = 1 ∨ i % 5 = 2 ∨ i % 5 = 3 ∨ i % 5 = 4 := by omega
    rcases h5 with h | h | h | h | h <;>
      simp [diseaseStep, collectMod, h, List.append_assoc]

theorem collectMod_shift (r : Nat) :
    ∀ (ts : List String) (i : Nat), collectMod r (i + 5) ts = collectMod r i ts := by
  intro ts
  induction ts with
  | nil => intro i; rfl
  | cons t ts ih =>
    intro i
    show (if (i + 5) % 5 = r then [t] else []) ++ collectMod r (i + 5 + 1) ts
        = (if i % 5 = r then [t] else []) ++ collectMod r (i + 1) ts
    rw [Nat.add_mod_right, show i + 5 + 1 = i + 1 + 5 by omega, ih]

theorem collectMod_length (r : Nat) (hr : r < 5) :
    ∀ (k : Nat) (ts : List String), ts.length = 5 * k →
      (collectMod r 0 ts).length = k := by
  intro k
  induction k with
  | zero =>
    intro ts h
    have : ts = [] := List.eq_nil_of_length_eq_zero (by omega)
    subst this
    rfl
  | succ k ih =>
    intro ts h
    match ts, h with
    | a :: b :: c :: d :: e :: ts', h =>
      have hts' : ts'.length = 5 * k := by
        simp only [List.length_cons] at h
        omega
      have hshift : collectMod r (0 + 5) ts' = collectMod r 0 ts' := collectMod_shift r ts' 0
      have h04 : r = 0 ∨ r = 1 ∨ r = 2 ∨ r = 3 ∨ r = 4 := by omega
      rcases h04 with h' | h' | h' | h' | h' <;>
        subst h' <;>
        simp [collectMod, show (0 : Nat) + 1 = 1 from rfl, hshift, ih ts' hts']

theorem collectMod_mem (r : Nat) :
    ∀ (ts : List String) (i : Nat) (t : String), t ∈ collectMod r i ts → t ∈ ts := by
  intro ts
  induction ts with
  | nil => intro i t h; exact absurd h (by simp [collectMod])
  | cons u ts ih =>
    intro i t h
    show t ∈ u :: ts
    rw [show collectMod r i (u :: ts)
        = (if i % 5 = r then [u] else []) ++ collectMod r (i + 1) ts from rfl] at h
    rcases List.mem_append.mp h with h | h
    · by_cases hc : i % 5 = r
      · simp [hc] at h
        simp [h]
      · simp [hc] at h
    · exact List.mem_cons_of_mem u (ih (i + 1) t h)

end CardParser

/-! ### Claim theorems: card and protocol extraction -/

/-- Claim C4 (amended): for a disease table with `5 * k` class-free cells
(`k ≥ 1`), each of the five fields collects exactly `k` cell texts,
assigned round-robin by document-order index modulo 5 in the fixed field
order, and each field is the `" ||| "`-join of its collected texts;
splitting the field on the separator reproduces the per-group cell texts
whenever no cell text contains a space character (the unconditional
splitting claim fails, see the counterexample). -/
theorem c4_disease_round_robin_join
    (card : CardParser.Card) (tds : List CardParser.Td) (texts : List String) (k : Nat)
    (htab : card.diseaseTable = some tds)
    (htexts : texts = (tds.filter (fun td => td.cls = none)).map (fun td => pyStrip td.text))
    (hlen : texts.length = 5 * k) (hk : 0 < k) :
    ∀ r : Nat, r < 5 →
      (CardParser.collectMod r 0 texts).length = k ∧
      CardParser.diseaseField (CardParser.get_disease_row_data card) r
        = some (pyJoin " ||| " (CardParser.collectMod r 0 texts)) ∧
      ((∀ t ∈ texts, ∀ a ∈ t.data, a ≠ ' ') →
        pySplit (pyJoin " ||| " (CardParser.collectMod r 0 texts)) " ||| "
          = CardParser.collectMod r 0 texts) := by
  intro r hr
  have hlen' := CardParser.collectMod_length r hr k texts hlen
  have hne : CardParser.collectMod r 0 texts ≠ [] := by
    intro h
    rw [h] at hlen'
    simp at hlen'
    omega
  have hfield : CardParser.get_disease_row_data card =
      { version := CardParser.joinOrNone (CardParser.collectMod 0 0 texts)
        soc_term := CardParser.joinOrNone (CardParser.collectMod 1 0 texts)
        classification_code := CardParser.joinOrNone (CardParser.collectMod 2 0 texts)
        term := CardParser.joinOrNone (CardParser.collectMod 3 0 texts)
        level := CardParser.joinOrNone (CardParser.collectMod 4 0 texts) } := by
    unfold CardParser.get_disease_row_data
    rw [htab]
    show ({ version := _, soc_term := _, classification_code := _, term := _, level := _ }
        : CardParser.Disease) = _
    rw [CardParser.diseaseGo_fields ((tds.filter (fun td => td.cls = none)).map
      (fun td => pyStrip td.text)) 0 {}]
    rw [← htexts]
    rfl
  have hjoin : ∀ r', r' < 5 →
      CardParser.joinOrNone (CardParser.collectMod r' 0 texts)
        = some (pyJoin " ||| " (CardParser.collectMod r' 0 texts)) := by
    intro r' hr'
    have hlen'' := CardParser.collectMod_length r' hr' k texts hlen
    unfold CardParser.joinOrNone
    rw [if_neg]
    intro hemp
    rw [List.isEmpty_iff] at hemp
    rw [hemp] at hlen''
    simp at hlen''
    omega
  refine ⟨hlen', ?_, ?_⟩
  · rw [hfield]
    have h04 : r = 0 ∨ r = 1 ∨ r = 2 ∨ r = 3 ∨ r = 4 := by omega
    rcases h04 with h' | h' | h' | h' | h' <;> subst h' <;>
      exact hjoin _ (by omega)
  · intro hsp
    apply pySplit_pyJoin _ hne
    intro t ht a ha
    exact hsp t (CardParser.collectMod_mem r texts 0 t ht) a ha

/-- Witness for C4 at a concrete two-group card. -/
theorem c4_disease_round_robin_join_witness :
    (CardParser.collectMod 0 0
        ["v1", "s1", "c1", "t1", "l1", "v2", "s2", "c2", "t2", "l2"]).length = 2 ∧
    CardParser.diseaseField (CardParser.get_disease_row_data cardW4) 0
      = some (pyJoin " ||| " (CardParser.collectMod 0 0
          ["v1", "s1", "c1", "t1", "l1", "v2", "s2", "c2", "t2", "l2"])) ∧
    pySplit (pyJoin " ||| " (CardParser.collectMod 0 0
        ["v1", "s1", "c1", "t1", "l1", "v2", "s2", "c2", "t2", "l2"])) " ||| "
      = CardParser.collectMod 0 0
          ["v1", "s1", "c1", "t1", "l1", "v2", "s2", "c2", "t2", "l2"] := by
  have h := c4_disease_round_robin_join cardW4
    [⟨"hdr", some "labelColumn"⟩,
     ⟨"v1", none⟩, ⟨"s1", none⟩, ⟨"c1", none⟩, ⟨"t1", none⟩, ⟨"l1", none⟩,
     ⟨"v2", none⟩, ⟨"s2", none⟩, ⟨"c2", none⟩, ⟨"t2", none⟩, ⟨"l2", none⟩]
    ["v1", "s1", "c1", "t1", "l1", "v2", "s2", "c2", "t2", "l2"] 2
    rfl (by decide) (by decide) (by decide) 0 (by decide)
  exact ⟨h.1, h.2.1, h.2.2 (by decide)⟩

/-- Counterexample for C4 as frozen: a cell text containing the separator
makes splitting fail to reproduce the single-element group. -/
theorem c4_split_not_inverse_counterexample :
    CardParser.diseaseField (CardParser.get_disease_row_data cardSep) 0 = some "a ||| b" ∧
    CardParser.collectMod 0 0 ["a ||| b", "s", "c", "t", "l"] = ["a ||| b"] ∧
    pySplit "a ||| b" " ||| " = ["a", "b"] ∧
    (["a", "b"] : List String) ≠ ["a ||| b"] :=
  ⟨rfl, rfl, rfl, by decide⟩

/-- Claim C5: a card without a nested table yields a disease record whose
five fields are all null. -/
theorem c5_no_table_all_null (card : CardParser.Card) (h : card.diseaseTable = none) :
    CardParser.get_disease_row_data card = ⟨none, none, none, none, none⟩ := by
  unfold CardParser.get_disease_row_data
  rw [h]

/-- Witness for C5 at a concrete table-free card. -/
theorem c5_no_table_all_null_witness :
    cardW5.diseaseTable = none ∧
    CardParser.get_disease_row_data cardW5 = ⟨none, none, none, none, none⟩ :=
  ⟨rfl, c5_no_table_all_null cardW5 rfl⟩

/-- Any base-URL concatenation is an absolute URL. -/
theorem isAbsoluteUrl_base (h : String) :
    CardParser.isAbsoluteUrl (CardParser.BASE_URL ++ h) = true := by
  unfold CardParser.isAbsoluteUrl
  rw [string_data_append]
  apply List.isPrefixOf_iff_prefix.mpr
  have h1 : "https://".data <+: CardParser.BASE_URL.data :=
    List.isPrefixOf_iff_prefix.mp (by rfl)
  exact h1.trans (List.prefix_append _ _)

/-- Claim C9: every protocol URL and every non-null results link is the
base-URL concatenation of the source anchor's `href`, hence absolute. -/
theorem c9_urls_absolute (card : CardParser.Card) :
    (∀ ref ∈ CardParser.get_trial_protocols card,
        CardParser.isAbsoluteUrl ref.protocol_url = true ∧
        ∃ a ∈ card.protocolAnchors, ref.protocol_url = CardParser.BASE_URL ++ a.href) ∧
    (∀ u, CardParser.get_trial_results_link card = some u →
        CardParser.isAbsoluteUrl u = true ∧
        ∃ h0, card.resultsHref = some h0 ∧ u = CardParser.BASE_URL ++ h0) := by
  constructor
  · intro ref href
    unfold CardParser.get_trial_protocols at href
    rcases List.mem_map.mp href with ⟨a, ha, rfl⟩
    exact ⟨isAbsoluteUrl_base a.href, a, ha, rfl⟩
  · intro u hu
    unfold CardParser.get_trial_results_link at hu
    cases hres : card.resultsHref with
    | none => rw [hres] at hu; cases hu
    | some h0 =>
      rw [hres] at hu
      have : CardParser.BASE_URL ++ h0 = u := by
        injection hu
      subst this
      exact ⟨isAbsoluteUrl_base h0, h0, rfl, rfl⟩

/-- Witness for C9 at a concrete card with one protocol link and a results
link. -/
theorem c9_urls_absolute_witness :
    CardParser.isAbsoluteUrl (CardParser.BASE_URL ++ "/ctr/1") = true ∧
    CardParser.isAbsoluteUrl (CardParser.BASE_URL ++ "/res") = true := by
  have h1 := (c9_urls_absolute cardW9).1
    ⟨"P1", CardParser.BASE_URL ++ "/ctr/1", "No Status Available"⟩ (by decide)
  have h2 := (c9_urls_absolute cardW9).2 (CardParser.BASE_URL ++ "/res") rfl
  exact ⟨h1.1, h2.1⟩

/-- Claim C6: a protocol-section row with a single cell contributes no
entry: dropping it leaves the section map unchanged. -/
theorem c6_single_cell_row_dropped (pre post : List (List String)) (c : String) :
    ProtocolParser.get_table_data (pre ++ [c] :: post)
      = ProtocolParser.get_table_data (pre ++ post) := by
  have hstep : ∀ d, ProtocolParser.rowStep d [c] = d := by
    intro d
    cases d <;> rfl
  unfold ProtocolParser.get_table_data
  rw [List.foldl_append, List.foldl_append, List.foldl_cons, hstep]

/-- Claim C3 (code evaluation): a row whose value list has exactly one
element stores the one-element list, not the unwrapped scalar the
specification describes. -/
theorem c3_single_element_value_kept_as_list :
    ProtocolParser.get_table_data [["a", "k", "v"]]
        = some [("k", ProtocolParser.PValue.list ["v"])] ∧
      some [("k", ProtocolParser.PValue.list ["v"])]
        ≠ some [("k", ProtocolParser.PValue.scalar "v")] :=
  ⟨rfl, by decide⟩

/-! ### Lemmas and claim theorem for results-information pairing (C7) -/

theorem dictInsert_keys_of_mem {α : Type} (d : List (String × α)) (k0 k' : String) (v : α)
    (h : k0 ∈ d.map Prod.fst) : k0 ∈ (dictInsert d k' v).map Prod.fst := by
  unfold dictInsert
  by_cases hc : k' ∈ d.map Prod.fst
  · rw [if_pos hc]
    have hkeys : (d.map (fun p => if p.1 = k' then (k', v) else p)).map Prod.fst
        = d.map Prod.fst := by
      rw [List.map_map]
      apply List.map_congr_left
      intro p _
      by_cases hp : p.1 = k' <;> simp [hp]
    rw [hkeys]
    exact h
  · rw [if_neg hc]
    rw [List.map_append]
    exact List.mem_append_left _ h

theorem dictInsert_filter_ne {α : Type} (d : List (String × α)) (k' kk : String) (v : α)
    (h : k' ≠ kk) :
    (dictInsert d k' v).filter (fun p => ¬ p.1 = kk)
      = dictInsert (d.filter (fun p => ¬ p.1 = kk)) k' v := by
  by_cases hc : k' ∈ d.map Prod.fst
  · have hc2 : k' ∈ (d.filter (fun p => ¬ p.1 = kk)).map Prod.fst := by
      rcases List.mem_map.mp hc with ⟨p, hp, hfst⟩
      exact List.mem_map.mpr
        ⟨p, List.mem_filter.mpr ⟨hp, by simp [hfst, h]⟩, hfst⟩
    rw [dictInsert, if_pos hc, dictInsert, if_pos hc2]
    rw [List.filter_map]
    congr 1
    apply List.filter_congr
    intro p _
    by_cases hp : p.1 = k' <;> simp [hp, h]
  · have hc2 : k' ∉ (d.filter (fun p => ¬ p.1 = kk)).map Prod.fst := by
      intro hmem
      apply hc
      rcases List.mem_map.mp hmem with ⟨p, hp, hfst⟩
      exact List.mem_map.mpr ⟨p, (List.mem_filter.mp hp).1, hfst⟩
    rw [dictInsert, if_neg hc, dictInsert, if_neg hc2]
    rw [List.filter_append]
    congr 1
    simp [h]

theorem pairsLoop_pop :
    ∀ (n : Nat) (rest : List String), rest.length ≤ n →
      ∀ (d : List (String × String)),
        "Results information" ∈ d.map Prod.fst →
        "Results information" ∉ ResultParser.pairKeys rest →
        (ResultParser.pairsLoop rest d).bind
            (fun D => dictPop D "Results information")
          = ResultParser.pairsLoop rest
              (d.filter (fun p => ¬ p.1 = "Results information")) := by
  intro n
  induction n with
  | zero =>
    intro rest hn d hmem _
    have : rest = [] := List.eq_nil_of_length_eq_zero (by omega)
    subst this
    show dictPop d "Results information"
      = some (d.filter (fun p => ¬ p.1 = "Results information"))
    rw [dictPop, if_pos hmem]
  | succ m ih =>
    intro rest hn d hmem hkeys
    match rest with
    | [] =>
      show dictPop d "Results information"
        = some (d.filter (fun p => ¬ p.1 = "Results information"))
      rw [dictPop, if_pos hmem]
    | [x] => rfl
    | k :: v :: r =>
      have hkhead : cleanV k ≠ "Results information" := by
        intro hEq
        apply hkeys
        show "Results information" ∈ cleanV k :: ResultParser.pairKeys r
        rw [hEq]
        exact List.mem_cons_self _ _
      have hktail : "Results information" ∉ ResultParser.pairKeys r := by
        intro hEq
        apply hkeys
        exact List.mem_cons_of_mem _ hEq
      show (ResultParser.pairsLoop r (dictInsert d (cleanV k) (cleanV v))).bind
          (fun D => dictPop D "Results information") = ResultParser.pairsLoop r _
      rw [ih r (by simp only [List.length_cons] at hn; omega) (dictInsert d (cleanV k) (cleanV v))
        (dictInsert_keys_of_mem d _ _ _ hmem) hktail]
      rw [dictInsert_filter_ne d (cleanV k) "Results information" (cleanV v) hkhead]

theorem splitAtRI_append (pre : List String) (suf : List String)
    (hpre : ∀ t ∈ pre, pyStrip t ≠ "Results information")
    (hsuf : ∃ k0 ts, suf = k0 :: ts ∧ pyStrip k0 = "Results information") :
    ResultParser.splitAtRI (pre ++ suf) = some suf := by
  induction pre with
  | nil =>
    rcases hsuf with ⟨k0, ts, rfl, hk0⟩
    show ResultParser.splitAtRI (k0 :: ts) = some (k0 :: ts)
    rw [ResultParser.splitAtRI, if_pos hk0]
  | cons t pre ih =>
    show ResultParser.splitAtRI (t :: (pre ++ suf)) = some suf
    rw [ResultParser.splitAtRI, if_neg (hpre t (by simp))]
    exact ih (fun u hu => hpre u (by simp [hu]))

/-- Claim C7: the results-information map is the alternating label/value
pairing of the cells from the "Results information" cell to the end of the
table, with the introductory pseudo-pair excluded (provided the
introductory label does not recur as a later label); and the claim's
concrete example evaluates exactly as stated. -/
theorem c7_results_information_pairs :
    (∀ (pre : List String) (k0 v0 : String) (rest : List String),
        (∀ t ∈ pre, pyStrip t ≠ "Results information") →
        pyStrip k0 = "Results information" →
        "Results information" ∉ ResultParser.pairKeys rest →
        ResultParser.resultsInfoOfTds (pre ++ k0 :: v0 :: rest)
          = ResultParser.pairsLoop rest []) ∧
    ResultParser.resultsInfoOfTds riCells
      = some [("Analysis stage", "Final"), ("Date of completion", "2020-01-01")] := by
  constructor
  · intro pre k0 v0 rest hpre hk0 hkeys
    have hsplit : ResultParser.splitAtRI (pre ++ k0 :: v0 :: rest)
        = some (k0 :: v0 :: rest) :=
      splitAtRI_append pre _ hpre ⟨k0, v0 :: rest, rfl, hk0⟩
    have hck : cleanV k0 = "Results information" := by
      show pyReplace (pyStrip k0) "\n" "" = _
      rw [hk0]
      rfl
    show (ResultParser.splitAtRI (pre ++ k0 :: v0 :: rest)).bind
        (fun suffix => (ResultParser.pairsLoop suffix []).bind
          (fun d => dictPop d "Results information"))
      = ResultParser.pairsLoop rest []
    rw [hsplit]
    show (ResultParser.pairsLoop rest
        (dictInsert [] (cleanV k0) (cleanV v0))).bind
        (fun d => dictPop d "Results information")
      = ResultParser.pairsLoop rest []
    rw [hck]
    have hins : dictInsert ([] : List (String × String)) "Results information" (cleanV v0)
        = [("Results information", cleanV v0)] := rfl
    rw [hins]
    rw [pairsLoop_pop rest.length rest (Nat.le_refl _)
      [("Results information", cleanV v0)] (by simp) hkeys]
    congr 1
  · rfl

/-- Witness for C7: the general pairing theorem applied to the claim's
example cells, whose pairing then evaluates to the stated map. -/
theorem c7_results_information_pairs_witness :
    ResultParser.resultsInfoOfTds riCells
      = ResultParser.pairsLoop
          ["Analysis stage", "Final", "Date of completion", "2020-01-01"] [] ∧
    ResultParser.pairsLoop
        ["Analysis stage", "Final", "Date of completion", "2020-01-01"] []
      = some [("Analysis stage", "Final"), ("Date of completion", "2020-01-01")] := by
  constructor
  · exact (c7_results_information_pairs).1 [] "Results information" ""
      ["Analysis stage", "Final", "Date of completion", "2020-01-01"]
      (by simp) (by decide) (by decide)
  · rfl

/-! ### Claim theorems: archival capture (C1) and additional info (C8, C10) -/

theorem get_additional_info_fst (p : ResultParser.ResultPage) :
    (ResultParser.get_additional_info p).1 = ResultParser.remove_closed_tables p := by
  unfold ResultParser.get_additional_info
  cases h : (ResultParser.remove_closed_tables p).jumperLinks <;> simp [h]

/-- Claim C1 (amended): the stored `html` field is the serialization of
the page after `remove_closed_tables` has mutated it, which coincides with
the input markup exactly when no table's id ends in `Closed`. -/
theorem c1_html_capture_after_closed_removal
    (pdfc : ResultParser.PdfCollab) (url : Option String)
    (p : ResultParser.ResultPage) (e : ResultParser.VersionEntry)
    (h : ResultParser.parseSteps pdfc url p = some e) :
    e.html = some (ResultParser.renderPage (ResultParser.remove_closed_tables p)) ∧
    ((∀ t ∈ p.tables, ResultParser.closedTable t = false) →
      ResultParser.renderPage (ResultParser.remove_closed_tables p)
        = ResultParser.renderPage p) := by
  constructor
  · unfold ResultParser.parseSteps at h
    cases hs : ResultParser.get_summary url p with
    | none => rw [hs] at h; simp at h
    | some s =>
      rw [hs] at h
      cases hri : ResultParser.get_results_information p with
      | none => rw [hri] at h; simp at h
      | some ri =>
        rw [hri] at h
        simp only [Option.bind] at h
        injection h with h'
        rw [← h']
        show some (ResultParser.renderPage (ResultParser.get_additional_info p).1) = _
        rw [get_additional_info_fst]
  · intro hall
    unfold ResultParser.remove_closed_tables
    rw [List.filter_eq_self.mpr (fun t ht => by simp [hall t ht])]

/-- Witness for C1 at a page with one ordinary table. -/
theorem c1_html_capture_witness :
    entryW1.html
      = some (ResultParser.renderPage (ResultParser.remove_closed_tables pageW1)) ∧
    ResultParser.renderPage (ResultParser.remove_closed_tables pageW1)
      = ResultParser.renderPage pageW1 := by
  have h := c1_html_capture_after_closed_removal pdfc0 none pageW1 entryW1 rfl
  refine ⟨h.1, h.2 ?_⟩
  intro t ht
  have ht' : t = ⟨some "T1", "<t1/>", .nil⟩ := by simpa [pageW1] using ht
  subst ht'
  rfl

/-- Counterexample for C1 as frozen: with a closed table present, the
captured markup differs from the input page's serialization. -/
theorem c1_html_not_verbatim_counterexample :
    ResultParser.parseFuel (fun _ => pageC1) pdfc0 1 none none pageC1
        = some [("v1", entryC1)] ∧
    entryC1.html ≠ some (ResultParser.renderPage pageC1) :=
  ⟨rfl, by decide⟩

/-- Claim C8 (code evaluation): a version entry extracted from a page with
no jump-to-section block carries no `additional_info` key at all, although
summary, results information and html are present. -/
theorem c8_missing_jumper_links_drops_key :
    ResultParser.parseFuel (fun _ => page8) pdfc0 1 none none page8
        = some [("v1", entry8)] ∧
    entry8.summary.isSome = true ∧
    entry8.results_information.isSome = true ∧
    entry8.html.isSome = true ∧
    entry8.additional_info = none :=
  ⟨rfl, rfl, rfl, rfl, rfl⟩

theorem addInfoLoop_drop_unmatched (links : List (String × String)) (ids : List String) :
    ∀ (pre rest : List ResultParser.RTable)
      (acc : List (String × List (List ResultParser.Json))),
      (∀ t ∈ pre, ∀ i, t.tid = some i → ids.contains i = false) →
      ResultParser.addInfoLoop links ids (pre ++ rest) none acc
        = ResultParser.addInfoLoop links ids rest none acc := by
  intro pre
  induction pre with
  | nil => intro rest acc _; rfl
  | cons t pre ih =>
    intro rest acc h
    obtain ⟨tid, cnt, rws⟩ := t
    cases tid with
    | none =>
      show ResultParser.addInfoLoop links ids (pre ++ rest) none acc = _
      exact ih rest acc (fun u hu i hi => h u (List.mem_cons_of_mem _ hu) i hi)
    | some i =>
      have hif : ids.contains i = false :=
        h ⟨some i, cnt, rws⟩ (List.mem_cons_self _ _) i rfl
      show ResultParser.addInfoLoop links ids
          (⟨some i, cnt, rws⟩ :: (pre ++ rest)) none acc = _
      simp only [ResultParser.addInfoLoop, hif, Bool.false_eq_true, if_false]
      exact ih rest acc (fun u hu i' hi' => h u (List.mem_cons_of_mem _ hu) i' hi')

theorem get_additional_info_some (p : ResultParser.ResultPage)
    (links : List (String × String)) (hjl : p.jumperLinks = some links) :
    (ResultParser.get_additional_info p).2
      = some (ResultParser.addInfoLoop (links.take (links.length - 2))
          (ResultParser.tableIds (links.take (links.length - 2)))
          (ResultParser.remove_closed_tables p).tables none []) := by
  have h2 : (ResultParser.remove_closed_tables p).jumperLinks = some links := hjl
  simp only [ResultParser.get_additional_info, h2]

/-- Claim C10: tables preceding the first anchor-matching table are
silently dropped — removing such a prefix leaves the additional-information
extraction unchanged, both at the table loop and at the page level. -/
theorem c10_tables_before_first_anchor_dropped
    (p q : ResultParser.ResultPage) (links : List (String × String))
    (pre rest : List ResultParser.RTable)
    (hjl : p.jumperLinks = some links)
    (htab : p.tables = pre ++ rest)
    (hq : q = { p with tables := rest })
    (hpre_open : ∀ t ∈ pre, ∀ i, t.tid = some i →
        (ResultParser.tableIds (links.take (links.length - 2))).contains i = false)
    (hpre_closed : ∀ t ∈ pre, ResultParser.closedTable t = false) :
    (ResultParser.get_additional_info p).2 = (ResultParser.get_additional_info q).2 := by
  have hqjl : q.jumperLinks = some links := by rw [hq]; exact hjl
  rw [get_additional_info_some p links hjl, get_additional_info_some q links hqjl]
  have hfp : (ResultParser.remove_closed_tables p).tables
      = pre ++ (ResultParser.remove_closed_tables q).tables := by
    show p.tables.filter (fun t => !ResultParser.closedTable t)
        = pre ++ q.tables.filter (fun t => !ResultParser.closedTable t)
    rw [htab, hq, List.filter_append]
    congr 1
    exact List.filter_eq_self.mpr (fun t ht => by simp [hpre_closed t ht])
  rw [hfp]
  rw [addInfoLoop_drop_unmatched _ _ pre _ [] hpre_open]

/-- Witness for C10 at a concrete page whose additional-information region
starts with a non-matching table. -/
theorem c10_tables_before_first_anchor_dropped_witness :
    (ResultParser.get_additional_info pageTenA).2
      = (ResultParser.get_additional_info pageTenB).2 ∧
    (ResultParser.get_additional_info pageTenB).2
      = some [("Section One", [[]])] := by
  constructor
  · refine c10_tables_before_first_anchor_dropped pageTenA pageTenB jlinksW
      [tablePre] [tableS1] rfl rfl rfl ?_ ?_
    · intro t ht i hi
      have ht' : t = tablePre := by simpa using ht
      subst ht'
      have : i = "intro" := by
        have := hi
        simp [tablePre] at this
        exact this.symm
      subst this
      rfl
    · intro t ht
      have ht' : t = tablePre := by simpa using ht
      subst ht'
      rfl
  · rfl

/-! ### Lemmas and claim theorem for the other-versions recursion (C2) -/

theorem parseFuel_known (fetch : String → ResultParser.ResultPage)
    (pdfc : ResultParser.PdfCollab) (g : Nat) (v : String) (url : Option String)
    (p : ResultParser.ResultPage) (e : ResultParser.VersionEntry)
    (hv : v ≠ "") (he : ResultParser.parseSteps pdfc url p = some e) :
    ResultParser.parseFuel fetch pdfc (g + 1) (some v) url p = some [(v, e)] := by
  show ResultParser.parseStep fetch pdfc (ResultParser.parseFuel fetch pdfc g)
      (some v) url p = some [(v, e)]
  unfold ResultParser.parseStep
  have hcond : ¬ ((some v : Option String) = none ∨ (some v : Option String) = some "") := by
    simp [hv]
  rw [if_neg hcond]
  show (ResultParser.parseSteps pdfc url p).bind
      (fun entry => some (dictInsert [] v entry)) = some [(v, e)]
  rw [he]
  rfl

theorem parseFuel_children (fetch : String → ResultParser.ResultPage)
    (pdfc : ResultParser.PdfCollab) (g : Nat)
    (ce : String × String → ResultParser.VersionEntry) :
    ∀ (links : List (String × String)) (d : ResultParser.VDict),
      (∀ hl ∈ links, cleanLabel hl.2 ≠ "") →
      (∀ hl ∈ links,
        ResultParser.parseSteps pdfc (some hl.1) (fetch hl.1) = some (ce hl)) →
      (links.map (fun hl => cleanLabel hl.2)).Nodup →
      (∀ hl ∈ links, cleanLabel hl.2 ∉ d.map Prod.fst) →
      (links.foldlM (fun d hl => do
          let child ← ResultParser.parseFuel fetch pdfc (g + 1)
            (some (cleanLabel hl.2)) (some hl.1) (fetch hl.1)
          pure (dictUpdate d child)) d)
        = some (d ++ links.map (fun hl => (cleanLabel hl.2, ce hl))) := by
  intro links
  induction links with
  | nil => intro d _ _ _ _; simp
  | cons hl ls ih =>
    intro d hlbl hch hnd hfresh
    rw [List.foldlM_cons]
    have hstep : (do
        let child ← ResultParser.parseFuel fetch pdfc (g + 1)
          (some (cleanLabel hl.2)) (some hl.1) (fetch hl.1)
        pure (dictUpdate d child) : Option ResultParser.VDict)
        = some (d ++ [(cleanLabel hl.2, ce hl)]) := by
      rw [parseFuel_known fetch pdfc g _ _ _ (ce hl)
        (hlbl hl (List.mem_cons_self _ _)) (hch hl (List.mem_cons_self _ _))]
      show some (dictUpdate d [(cleanLabel hl.2, ce hl)]) = _
      congr 1
      show dictInsert d (cleanLabel hl.2) (ce hl) = _
      rw [dictInsert, if_neg (hfresh hl (List.mem_cons_self _ _))]
    rw [hstep]
    show ls.foldlM (fun d hl => do
        let child ← ResultParser.parseFuel fetch pdfc (g + 1)
          (some (cleanLabel hl.2)) (some hl.1) (fetch hl.1)
        pure (dictUpdate d child)) (d ++ [(cleanLabel hl.2, ce hl)])
      = some (d ++ (hl :: ls).map (fun hl => (cleanLabel hl.2, ce hl)))
    simp only [List.map_cons] at hnd
    rw [ih (d ++ [(cleanLabel hl.2, ce hl)])
      (fun hl' hls => hlbl hl' (List.mem_cons_of_mem _ hls))
      (fun hl' hls => hch hl' (List.mem_cons_of_mem _ hls))
      (List.Nodup.of_cons hnd)
      ?_]
    · rw [List.map_cons, List.append_assoc]
      rfl
    · intro hl' hls hmem
      rw [List.map_append] at hmem
      rcases List.mem_append.mp hmem with hm | hm
      · exact hfresh hl' (List.mem_cons_of_mem _ hls) hm
      · have heq : cleanLabel hl'.2 = cleanLabel hl.2 := by simpa using hm
        have : cleanLabel hl.2 ∈ ls.map (fun hl => cleanLabel hl.2) := by
          rw [← heq]
          exact List.mem_map_of_mem _ hls
        exact (List.nodup_cons.mp hnd).1 this

/-- Claim C2 (amended): when every linked version label is nonempty and
the labels together with the entry page's own detected label are pairwise
distinct, a top-level parse at any fuel bound of at least 2 terminates and
produces exactly one version entry per link plus the entry page's own, in
order — each child entry being the plain per-page extraction of the
fetched page, enumerated upfront — so there are exactly N+1 version keys;
moreover the result depends on the fetch collaborator only at the listed
link targets.  (With an empty linked label the expansion re-enters and a
cross-link cycle makes the recursion diverge: see the counterexample.) -/
theorem c2_versions_visited_once
    (fetch : String → ResultParser.ResultPage) (pdfc : ResultParser.PdfCollab)
    (p : ResultParser.ResultPage) (url : Option String) (vn : String)
    (ce : String × String → ResultParser.VersionEntry) (oe : ResultParser.VersionEntry)
    (fuel : Nat) (hfuel : 2 ≤ fuel)
    (hvn : p.versionNumber = some vn)
    (hlbl : ∀ hl ∈ p.otherVersions, cleanLabel hl.2 ≠ "")
    (hch : ∀ hl ∈ p.otherVersions,
        ResultParser.parseSteps pdfc (some hl.1) (fetch hl.1) = some (ce hl))
    (hnd : ((p.otherVersions.map (fun hl => cleanLabel hl.2)) ++ [cleanLabel vn]).Nodup)
    (hown : ResultParser.parseSteps pdfc url p = some oe) :
    (ResultParser.parseFuel fetch pdfc fuel none url p
        = some (p.otherVersions.map (fun hl => (cleanLabel hl.2, ce hl))
            ++ [(cleanLabel vn, oe)])) ∧
    ((p.otherVersions.map (fun hl => (cleanLabel hl.2, ce hl))
        ++ [(cleanLabel vn, oe)]).map Prod.fst
      = p.otherVersions.map (fun hl => cleanLabel hl.2) ++ [cleanLabel vn]) ∧
    ((p.otherVersions.map (fun hl => (cleanLabel hl.2, ce hl))
        ++ [(cleanLabel vn, oe)]).length = p.otherVersions.length + 1) ∧
    (∀ fetch2 : String → ResultParser.ResultPage,
      (∀ hl ∈ p.otherVersions, fetch2 hl.1 = fetch hl.1) →
      ResultParser.parseFuel fetch2 pdfc fuel none url p
        = some (p.otherVersions.map (fun hl => (cleanLabel hl.2, ce hl))
            ++ [(cleanLabel vn, oe)])) := by
  have hkeys : (p.otherVersions.map (fun hl => (cleanLabel hl.2, ce hl))).map Prod.fst
      = p.otherVersions.map (fun hl => cleanLabel hl.2) := by
    rw [List.map_map]
    rfl
  have hnotmem : cleanLabel vn
      ∉ (p.otherVersions.map (fun hl => (cleanLabel hl.2, ce hl))).map Prod.fst := by
    rw [hkeys]
    intro hmem
    exact List.disjoint_of_nodup_append hnd hmem (List.mem_singleton_self _)
  have main : ∀ fetch2 : String → ResultParser.ResultPage,
      (∀ hl ∈ p.otherVersions, fetch2 hl.1 = fetch hl.1) →
      ResultParser.parseFuel fetch2 pdfc fuel none url p
        = some (p.otherVersions.map (fun hl => (cleanLabel hl.2, ce hl))
            ++ [(cleanLabel vn, oe)]) := by
    intro fetch2 hag
    obtain ⟨g, rfl⟩ : ∃ g, fuel = g + 2 := ⟨fuel - 2, by omega⟩
    show ResultParser.parseStep fetch2 pdfc
        (ResultParser.parseFuel fetch2 pdfc (g + 1)) none url p = _
    unfold ResultParser.parseStep
    rw [if_pos (Or.inl rfl)]
    have hch2 : ∀ hl ∈ p.otherVersions,
        ResultParser.parseSteps pdfc (some hl.1) (fetch2 hl.1) = some (ce hl) := by
      intro hl hm
      rw [hag hl hm]
      exact hch hl hm
    have hfold := parseFuel_children fetch2 pdfc g ce p.otherVersions []
      hlbl hch2 (List.Nodup.of_append_left hnd) (fun hl _ => by simp)
    rw [hfold]
    show (p.versionNumber.map cleanLabel).bind
        (fun v => (ResultParser.parseSteps pdfc url p).bind
          (fun entry => some (dictInsert
            ([] ++ p.otherVersions.map (fun hl => (cleanLabel hl.2, ce hl))) v entry)))
      = _
    rw [hvn, hown]
    show some (dictInsert
        ([] ++ p.otherVersions.map (fun hl => (cleanLabel hl.2, ce hl)))
        (cleanLabel vn) oe) = _
    rw [List.nil_append, dictInsert, if_neg hnotmem]
  refine ⟨main fetch (fun _ _ => rfl), ?_, ?_, main⟩
  · rw [List.map_append, hkeys]
    rfl
  · rw [List.length_append, List.length_map]
    rfl

/-- Witness for C2 at a concrete entry page with two linked versions. -/
theorem c2_versions_visited_once_witness :
    ResultParser.parseFuel fetchC2 pdfc0 2 none none pageC2
      = some [("v1", ceC2 ("a", "v1")), ("v2", ceC2 ("b", "v2")), ("v3", entryE2)] ∧
    ([("v1", ceC2 ("a", "v1")), ("v2", ceC2 ("b", "v2")), ("v3", entryE2)]
        : ResultParser.VDict).map Prod.fst = ["v1", "v2", "v3"] ∧
    ([("v1", ceC2 ("a", "v1")), ("v2", ceC2 ("b", "v2")), ("v3", entryE2)]
        : ResultParser.VDict).length = pageC2.otherVersions.length + 1 := by
  have h := c2_versions_visited_once fetchC2 pdfc0 pageC2 none "v3" ceC2 entryE2 2
    (by omega) rfl ?_ ?_ ?_ rfl
  · exact ⟨h.1, rfl, rfl⟩
  · intro hl hm
    have : hl = ("a", "v1") ∨ hl = ("b", "v2") := by simpa [pageC2] using hm
    rcases this with rfl | rfl <;> decide
  · intro hl hm
    have : hl = ("a", "v1") ∨ hl = ("b", "v2") := by simpa [pageC2] using hm
    rcases this with rfl | rfl <;> rfl
  · decide

theorem parseFuel_cyc_aux :
    ∀ (f : Nat) (url : Option String),
      ResultParser.parseFuel cycFetch pdfc0 f (some "") url pageCycA = none ∧
      ResultParser.parseFuel cycFetch pdfc0 f (some "") url pageCycB = none := by
  intro f
  induction f with
  | zero => intro url; exact ⟨rfl, rfl⟩
  | succ g ih =>
    intro url
    have hcl : cleanLabel "" = "" := rfl
    constructor
    · have h1 := (ih (some "b")).2
      show ResultParser.parseStep cycFetch pdfc0
          (ResultParser.parseFuel cycFetch pdfc0 g) (some "") url pageCycA = none
      simp [ResultParser.parseStep, pageCycA, List.foldlM_cons, List.foldlM_nil,
        hcl, show cycFetch "b" = pageCycB from rfl, h1]
    · have h1 := (ih (some "a")).1
      show ResultParser.parseStep cycFetch pdfc0
          (ResultParser.parseFuel cycFetch pdfc0 g) (some "") url pageCycB = none
      simp [ResultParser.parseStep, pageCycB, List.foldlM_cons, List.foldlM_nil,
        hcl, show cycFetch "a" = pageCycA from rfl, h1]

theorem parseFuel_cyc_top (f : Nat) (url : Option String) :
    ResultParser.parseFuel cycFetch pdfc0 f none url pageCycE = none := by
  cases f with
  | zero => rfl
  | succ g =>
    have hcl : cleanLabel "" = "" := rfl
    have h1 := (parseFuel_cyc_aux g (some "a")).1
    show ResultParser.parseStep cycFetch pdfc0
        (ResultParser.parseFuel cycFetch pdfc0 g) none url pageCycE = none
    simp [ResultParser.parseStep, pageCycE, List.foldlM_cons, List.foldlM_nil,
      hcl, show cycFetch "a" = pageCycA from rfl, h1]

/-- Counterexample for C2 as frozen: an entry page linking one other
version whose anchor text is empty re-enters the expansion (Python
truthiness of the empty label), and under a cross-link cycle the
extraction produces no result at any tested recursion bound instead of the
claimed N+1 = 2 version keys. -/
theorem c2_cross_link_empty_label_diverges :
    pageCycE.otherVersions.length = 1 ∧
    ResultParser.parseFuel cycFetch pdfc0 6 none none pageCycE = none ∧
    ResultParser.parseFuel cycFetch pdfc0 40 none none pageCycE = none :=
  ⟨rfl, parseFuel_cyc_top 6 none, parseFuel_cyc_top 40 none⟩
